import Mathlib

/-!
Shallow embedding of the `lab` command protocol (files `src/lab/*.py`):
the five command variants (`who`, `bool`, `isprime`, `finishsession`,
`stats`) with their byte-level encoders/decoders, the per-connection
session state, command execution, and the server's send/handle step.

Python `bytes` values are modelled as `List Nat` with each entry `< 256`.
Python exceptions are modelled with `Except PyError`.
-/

namespace SocketsLab

/-- A Python `bytes` value: a list of byte values (each `< 256`). -/
abbrev Bytes := List Nat

/-- Python errors raised by the embedded code. -/
inductive PyError where
  /-- `ValueError` (bad bool payload, author too long). -/
  | valueError
  /-- `OverflowError` (`int.to_bytes` / `IsPrimeCommand.__init__` range check). -/
  | overflowError
  /-- `struct.error` (wrong buffer size in `struct.unpack`/`struct.pack`). -/
  | structError
  /-- `UnicodeDecodeError` from `bytes.decode()`. -/
  | unicodeDecodeError
  /-- `AttributeError` (attribute access on `None`). -/
  | attributeError
  deriving DecidableEq, Repr

/-- `int.from_bytes(bs, byteorder='little')` (unsigned). -/
def leDecode : Bytes → Nat
  | [] => 0
  | b :: rest => b + 256 * leDecode rest

/-- Little-endian encoding of `m` into exactly `k` bytes
(the byte string produced by `int.to_bytes(k, 'little')` when in range). -/
def leEncode : Nat → Nat → Bytes
  | 0, _ => []
  | k + 1, m => m % 256 :: leEncode k (m / 256)

/-- `int.from_bytes(bs, byteorder='little', signed=True)`. -/
def fromBytesSigned (bs : Bytes) : Int :=
  let v := leDecode bs
  if 2 ^ (8 * bs.length) ≤ 2 * v then (v : Int) - 2 ^ (8 * bs.length) else (v : Int)

/-- `n.to_bytes(k, 'little', signed=True)`: raises `OverflowError` when `n`
is outside the signed `k`-byte range, otherwise encodes `n mod 2^(8k)`
little-endian. -/
def toBytesSigned (k : Nat) (n : Int) : Except PyError Bytes :=
  if -(2 ^ (8 * k - 1) : Int) ≤ n ∧ n < 2 ^ (8 * k - 1) then
    .ok (leEncode k (n % 2 ^ (8 * k)).toNat)
  else .error .overflowError

/-- `bytes.strip(b'\x00')`: drop zero bytes from both ends. -/
def stripNulls (bs : Bytes) : Bytes :=
  ((bs.dropWhile (· = 0)).reverse.dropWhile (· = 0)).reverse

/-- Is `b` a UTF-8 continuation byte (`0x80..0xBF`)? -/
def utf8Cont (b : Nat) : Bool := 0x80 ≤ b && b ≤ 0xBF

/-- States of the RFC 3629 UTF-8 acceptor: how many continuation bytes are
still expected, with the restricted-range states after a first byte of
`E0`, `ED`, `F0` or `F4` (which exclude overlong forms, surrogates and code
points above `U+10FFFF`). -/
inductive Utf8State where
  | start
  | one
  | two
  | twoE0
  | twoED
  | three
  | threeF0
  | threeF4
  deriving DecidableEq, Repr

/-- One byte of the UTF-8 acceptor; `none` rejects. -/
def utf8Step (st : Utf8State) (b : Nat) : Option Utf8State :=
  match st with
  | .start =>
    if b ≤ 0x7F then some .start
    else if 0xC2 ≤ b && b ≤ 0xDF then some .one
    else if b = 0xE0 then some .twoE0
    else if b = 0xED then some .twoED
    else if (0xE1 ≤ b && b ≤ 0xEC) || (0xEE ≤ b && b ≤ 0xEF) then some .two
    else if b = 0xF0 then some .threeF0
    else if 0xF1 ≤ b && b ≤ 0xF3 then some .three
    else if b = 0xF4 then some .threeF4
    else none
  | .one => if utf8Cont b then some .start else none
  | .two => if utf8Cont b then some .one else none
  | .twoE0 => if 0xA0 ≤ b && b ≤ 0xBF then some .one else none
  | .twoED => if 0x80 ≤ b && b ≤ 0x9F then some .one else none
  | .three => if utf8Cont b then some .two else none
  | .threeF0 => if 0x90 ≤ b && b ≤ 0xBF then some .two else none
  | .threeF4 => if 0x80 ≤ b && b ≤ 0x8F then some .two else none

/-- Run the acceptor; a byte string is accepted when it ends in `start`. -/
def validUtf8Aux (st : Utf8State) : Bytes → Bool
  | [] => st = .start
  | b :: rest =>
    match utf8Step st b with
    | none => false
    | some st2 => validUtf8Aux st2 rest

/-- RFC 3629 UTF-8 validity of a byte string, as checked by Python's
`bytes.decode()` (strict errors). -/
def validUtf8 (bs : Bytes) : Bool := validUtf8Aux .start bs

/-- The five command variants (`src/lab/*command.py`), as a tagged value
type.  A `who` author is the UTF-8 encoding of the Python `author` string
(`none` models Python's `None`); equality of two variants is field-for-field
equality, as in Python value comparison of the commands' fields. -/
inductive Command where
  | who (author : Option Bytes)
  | bool (value : Bool)
  | isprime (n : Int)
  | finishsession
  | stats (numbers_cnt primes_cnt min_value max_value : Int)
  deriving DecidableEq, Repr

/-- The class attribute `name`, encoded (`command.name.encode()`): ASCII bytes
of `'who'`, `'bool'`, `'isprime'`, `'finishsession'`, `'stats'`. -/
def Command.nameBytes : Command → Bytes
  | .who _ => [119, 104, 111]
  | .bool _ => [98, 111, 111, 108]
  | .isprime _ => [105, 115, 112, 114, 105, 109, 101]
  | .finishsession => [102, 105, 110, 105, 115, 104, 115, 101, 115, 115, 105, 111, 110]
  | .stats .. => [115, 116, 97, 116, 115]

/-- The class attribute `data_length` of each variant. -/
def Command.data_length : Command → Nat
  | .who _ => 128
  | .bool _ => 1
  | .isprime _ => 4
  | .finishsession => 0
  | .stats .. => 16

namespace WhoCommand

/-- `WhoCommand.from_bytes`: `data_bytes.strip(b'\x00').decode() or None`.
`decode()` raises `UnicodeDecodeError` on invalid UTF-8; an empty decoded
string becomes `None`. -/
def from_bytes (data_bytes : Bytes) : Except PyError Command :=
  let stripped := stripNulls data_bytes
  if validUtf8 stripped then
    .ok (.who (if stripped = [] then none else some stripped))
  else .error .unicodeDecodeError

/-- `WhoCommand.to_bytes`: a falsy author (Python `None` or `''`) encodes as
128 zero bytes; otherwise the encoded author is left-justified to 128 bytes
with zero padding, and a `ValueError` is raised when it is longer than 128
(the length check happens after `ljust`, which never shortens). -/
def to_bytes (author : Option Bytes) : Except PyError Bytes :=
  if author.getD [] = [] then .ok (List.replicate 128 0)
  else
    let a := author.getD [] ++ List.replicate (128 - (author.getD []).length) 0
    if 128 < a.length then .error .valueError else .ok a

end WhoCommand

namespace BoolCommand

/-- `BoolCommand.from_bytes`: interpret the payload as an unsigned
little-endian integer; raise `ValueError` unless the value is 0 or 1;
`bool(value)` is true exactly when the value is nonzero. -/
def from_bytes (data_bytes : Bytes) : Except PyError Command :=
  let value := leDecode data_bytes
  if value ≠ 0 ∧ value ≠ 1 then .error .valueError
  else .ok (.bool (value ≠ 0))

/-- `BoolCommand.to_bytes`: `self.value.to_bytes(1, 'little')`
(Python `True`/`False` are the integers 1/0). -/
def to_bytes (value : Bool) : Bytes :=
  leEncode 1 (if value then 1 else 0)

end BoolCommand

namespace IsPrimeCommand

/-- `IsPrimeCommand.MAX_ALLOWED = 2 ** 31 - 1`. -/
def MAX_ALLOWED : Int := 2 ^ 31 - 1

/-- `IsPrimeCommand.MIN_ALLOWED = - 2 ** 31`. -/
def MIN_ALLOWED : Int := -(2 ^ 31)

/-- `IsPrimeCommand.__init__`: raises `OverflowError` unless
`MIN_ALLOWED <= n <= MAX_ALLOWED`. -/
def init (n : Int) : Except PyError Command :=
  if ¬(MIN_ALLOWED ≤ n ∧ n ≤ MAX_ALLOWED) then .error .overflowError
  else .ok (.isprime n)

/-- `IsPrimeCommand.from_bytes`: signed little-endian decode, then the
constructor's range check. -/
def from_bytes (data_bytes : Bytes) : Except PyError Command :=
  init (fromBytesSigned data_bytes)

/-- `IsPrimeCommand.to_bytes`: `self.n.to_bytes(4, 'little', signed=True)`. -/
def to_bytes (n : Int) : Except PyError Bytes :=
  toBytesSigned 4 n

/-- `int(math.sqrt(n))` for `0 ≤ n`, the integer square root.  For every
`n ≤ 2^31 - 1` the double-precision `math.sqrt` is exact enough that
truncating it equals the integer square root: `n` is exactly representable,
`sqrt` is correctly rounded, and for `n = k^2 ± j` (`j ≥ 1`, `k ≤ 46341`)
the real square root is at least `1/(2k+1) > 2^-17` away from the nearest
crossing integer, far above the rounding error bound `2^-37`. -/
def isqrt (n : Nat) : Nat := Nat.findGreatest (fun k => k * k ≤ n) n

/-- `IsPrimeCommand._is_prime`: trial division by every
`d` in `range(2, int(math.sqrt(n)) + 1)`; `n < 2` is not prime. -/
def is_prime (n : Int) : Bool :=
  if n < 2 then false
  else
    let sqrt_n := isqrt n.toNat
    (List.range' 2 (sqrt_n + 1 - 2)).all fun d => decide (¬n % (d : Int) = 0)

end IsPrimeCommand

namespace FinishSessionCommand

/-- `FinishSessionCommand.from_bytes`: ignores its payload. -/
def from_bytes (_data_bytes : Bytes) : Except PyError Command :=
  .ok .finishsession

/-- `FinishSessionCommand.to_bytes`: `bytes()`. -/
def to_bytes : Bytes := []

end FinishSessionCommand

namespace StatsCommand

/-- `StatsCommand.from_bytes`: `struct.unpack('<iiii', data_bytes)` demands
exactly 16 bytes (else `struct.error`) and splits them into four signed
32-bit little-endian integers. -/
def from_bytes (data_bytes : Bytes) : Except PyError Command :=
  if data_bytes.length = 16 then
    .ok (.stats (fromBytesSigned (data_bytes.take 4))
      (fromBytesSigned ((data_bytes.drop 4).take 4))
      (fromBytesSigned ((data_bytes.drop 8).take 4))
      (fromBytesSigned (data_bytes.drop 12)))
  else .error .structError

/-- `StatsCommand.to_bytes`: `struct.pack('<iiii', ...)`, which raises when a
field is outside the signed 32-bit range. -/
def to_bytes (numbers_cnt primes_cnt min_value max_value : Int) :
    Except PyError Bytes := do
  let b1 ← toBytesSigned 4 numbers_cnt
  let b2 ← toBytesSigned 4 primes_cnt
  let b3 ← toBytesSigned 4 min_value
  let b4 ← toBytesSigned 4 max_value
  return b1 ++ b2 ++ b3 ++ b4

end StatsCommand

/-- `to_bytes` of a command, dispatched on its variant. -/
def Command.to_bytes : Command → Except PyError Bytes
  | .who author => WhoCommand.to_bytes author
  | .bool value => .ok (BoolCommand.to_bytes value)
  | .isprime n => IsPrimeCommand.to_bytes n
  | .finishsession => .ok FinishSessionCommand.to_bytes
  | .stats a b c d => StatsCommand.to_bytes a b c d

/-- `from_bytes` of the class of the given command: the decoder a registry
lookup of that variant's `name` would return. -/
def Command.decodeAs : Command → Bytes → Except PyError Command
  | .who _, bs => WhoCommand.from_bytes bs
  | .bool _, bs => BoolCommand.from_bytes bs
  | .isprime _, bs => IsPrimeCommand.from_bytes bs
  | .finishsession, bs => FinishSessionCommand.from_bytes bs
  | .stats .., bs => StatsCommand.from_bytes bs

/-- `SessionData` (`src/lab/commandserver.py`).  `author` is the UTF-8
encoding of the session's author string. -/
structure SessionData where
  author : Bytes
  session_running : Bool
  numbers_cnt : Int
  primes_cnt : Int
  min_value : Int
  max_value : Int
  deriving DecidableEq, Repr

/-- The fresh `SessionData()` built at the start of `handle_connection`.
The constant `lab.constants.AUTHOR` lives in `lab/constants.py`, which is
not among the sources; the spec describes it only as a constant identity
string, so the initial author is a parameter here (no claim depends on its
value). -/
def SessionData.initial (author : Bytes) : SessionData :=
  { author := author
    session_running := true
    numbers_cnt := 0
    primes_cnt := 0
    min_value := IsPrimeCommand.MAX_ALLOWED
    max_value := IsPrimeCommand.MIN_ALLOWED }

/-- `command(session_data)` — each variant's `__call__` on the session
state, returning the updated state and the optional response command.
`who`: Python's `if not self.author` treats `None` and the empty string
alike.  `bool` and `stats` inherit `BaseCommand.__call__`, which returns
`None` and touches nothing. -/
def Command.call : Command → SessionData → SessionData × Option Command
  | .who author, s =>
    (s, if author.getD [] = [] then some (.who (some s.author)) else none)
  | .isprime n, s =>
    let s1 := { s with
      numbers_cnt := s.numbers_cnt + 1
      max_value := max n s.max_value
      min_value := min n s.min_value }
    let p := IsPrimeCommand.is_prime n
    let s2 := if p then { s1 with primes_cnt := s1.primes_cnt + 1 } else s1
    (s2, some (.bool p))
  | .finishsession, s =>
    ({ s with session_running := false },
      some (.stats s.numbers_cnt s.primes_cnt s.min_value s.max_value))
  | .bool _, s => (s, none)
  | .stats .., s => (s, none)

/-- Run a list of commands in order, keeping only the session state. -/
def execAll (cs : List Command) (s : SessionData) : SessionData :=
  cs.foldl (fun s c => (Command.call c s).1) s

namespace CommandServer

/-- `MESSAGE_HEADER_SIZE_LENGTH = 1`. -/
def MESSAGE_HEADER_SIZE_LENGTH : Nat := 1

/-- `CommandServer._send_command` applied to `handle_connection`'s
`response_command`, which may be Python `None`: the body immediately reads
`command.name`, so a `None` response raises `AttributeError`.  Otherwise the
message is the 1-byte header length, the encoded name, and `bytes(command)`
(which re-raises whatever `to_bytes` raises). -/
def sendCommand : Option Command → Except PyError Bytes
  | none => .error .attributeError
  | some c => do
    let name := c.nameBytes
    let header := leEncode MESSAGE_HEADER_SIZE_LENGTH
      (MESSAGE_HEADER_SIZE_LENGTH + name.length) ++ name
    let data ← c.to_bytes
    return header ++ data

/-- One iteration of `handle_connection`'s loop after a command has been
received and decoded: execute it on the session state, then encode and send
the response.  Returns the new state and the bytes written, or the Python
error that aborts the session. -/
def handleCommand (s : SessionData) (command : Command) :
    Except PyError (SessionData × Bytes) :=
  let r := command.call s
  (sendCommand r.2).map fun msg => (r.1, msg)

end CommandServer

/-- The valid domain of a command value for the encode/decode round trip:
`isprime` and every `stats` field must lie in the signed 32-bit range
(outside it `to_bytes` raises); a `who` author must be absent, or a
nonempty UTF-8 byte string of at most 128 bytes whose first and last bytes
are nonzero — the wire format pads with zero bytes and `from_bytes` strips
zero bytes from both ends, so authors with a leading or trailing NUL are
not representable on the wire. -/
def Command.validDomain : Command → Bool
  | .who none => true
  | .who (some a) =>
    !a.isEmpty && decide (a.length ≤ 128) && decide (a.head? ≠ some 0)
      && decide (a.getLast? ≠ some 0) && validUtf8 a
  | .bool _ => true
  | .isprime n =>
    decide (IsPrimeCommand.MIN_ALLOWED ≤ n ∧ n ≤ IsPrimeCommand.MAX_ALLOWED)
  | .finishsession => true
  | .stats a b c d =>
    decide (IsPrimeCommand.MIN_ALLOWED ≤ a ∧ a ≤ IsPrimeCommand.MAX_ALLOWED)
      && decide (IsPrimeCommand.MIN_ALLOWED ≤ b ∧ b ≤ IsPrimeCommand.MAX_ALLOWED)
      && decide (IsPrimeCommand.MIN_ALLOWED ≤ c ∧ c ≤ IsPrimeCommand.MAX_ALLOWED)
      && decide (IsPrimeCommand.MIN_ALLOWED ≤ d ∧ d ≤ IsPrimeCommand.MAX_ALLOWED)

/-- The domain needed for the encoded-length invariant: as
`Command.validDomain`, except that a `who` author only needs encoded length
at most 128 (the padding always reaches exactly 128 bytes). -/
def Command.lengthDomain : Command → Bool
  | .who none => true
  | .who (some a) => decide (a.length ≤ 128)
  | .bool _ => true
  | .isprime n =>
    decide (IsPrimeCommand.MIN_ALLOWED ≤ n ∧ n ≤ IsPrimeCommand.MAX_ALLOWED)
  | .finishsession => true
  | .stats a b c d =>
    decide (IsPrimeCommand.MIN_ALLOWED ≤ a ∧ a ≤ IsPrimeCommand.MAX_ALLOWED)
      && decide (IsPrimeCommand.MIN_ALLOWED ≤ b ∧ b ≤ IsPrimeCommand.MAX_ALLOWED)
      && decide (IsPrimeCommand.MIN_ALLOWED ≤ c ∧ c ≤ IsPrimeCommand.MAX_ALLOWED)
      && decide (IsPrimeCommand.MIN_ALLOWED ≤ d ∧ d ≤ IsPrimeCommand.MAX_ALLOWED)

/-! ### Helper lemmas about the byte-level codec -/

lemma leEncode_length (k m : Nat) : (leEncode k m).length = k := by
  induction k generalizing m with
  | zero => rfl
  | succ k ih => simp [leEncode, ih]

lemma leDecode_lt (bs : Bytes) (hb : ∀ b ∈ bs, b < 256) :
    leDecode bs < 2 ^ (8 * bs.length) := by
  induction bs with
  | nil => simp [leDecode]
  | cons b rest ih =>
    have hb1 : b < 256 := hb b (by simp)
    have ih1 := ih (fun x hx => hb x (by simp [hx]))
    have hpow : 2 ^ (8 * (rest.length + 1)) = 256 * 2 ^ (8 * rest.length) := by
      rw [Nat.mul_add, Nat.pow_add]; ring
    simp only [leDecode, List.length_cons, hpow]
    omega

lemma leDecode_leEncode (k m : Nat) (h : m < 2 ^ (8 * k)) :
    leDecode (leEncode k m) = m := by
  induction k generalizing m with
  | zero => simp [leEncode, leDecode]; omega
  | succ k ih =>
    have hpow : 2 ^ (8 * (k + 1)) = 256 * 2 ^ (8 * k) := by
      rw [Nat.mul_add, Nat.pow_add]; ring
    have hdiv : m / 256 < 2 ^ (8 * k) := by omega
    simp only [leEncode, leDecode, ih (m / 256) hdiv]
    omega

lemma fromBytesSigned_leEncode_int32 (n : Int)
    (h1 : -(2 ^ 31) ≤ n) (h2 : n < 2 ^ 31) :
    fromBytesSigned (leEncode 4 (n % 2 ^ 32).toNat) = n := by
  have e32 : (2 : Int) ^ 32 = 4294967296 := by norm_num
  norm_num at h1 h2
  rw [e32]
  have hm0 : 0 ≤ n % 4294967296 := by omega
  have hm1 : n % 4294967296 < 4294967296 := by omega
  have hcast : ((n % 4294967296).toNat : Int) = n % 4294967296 :=
    Int.toNat_of_nonneg hm0
  have hlt : (n % 4294967296).toNat < 4294967296 := by omega
  have hdec : leDecode (leEncode 4 (n % 4294967296).toNat) =
      (n % 4294967296).toNat := by
    refine leDecode_leEncode 4 _ ?_
    have : (2 : Nat) ^ (8 * 4) = 4294967296 := by norm_num
    omega
  simp only [fromBytesSigned, leEncode_length, hdec]
  have eN : (2 : Nat) ^ (8 * 4) = 4294967296 := by norm_num
  have eZ : (2 : Int) ^ (8 * 4) = 4294967296 := by norm_num
  rw [eN, eZ]
  split <;> omega

lemma toBytesSigned_int32 (n : Int) (h1 : -(2 ^ 31) ≤ n) (h2 : n < 2 ^ 31) :
    toBytesSigned 4 n = .ok (leEncode 4 (n % 2 ^ 32).toNat) := by
  have hc : -(2 ^ (8 * 4 - 1) : Int) ≤ n ∧ n < 2 ^ (8 * 4 - 1) := by
    norm_num at h1 h2 ⊢
    omega
  rw [toBytesSigned, if_pos hc]

lemma roundtrip_int32 (n : Int) (h1 : -(2 ^ 31) ≤ n) (h2 : n < 2 ^ 31) :
    ∃ bs : Bytes, toBytesSigned 4 n = .ok bs ∧ bs.length = 4 ∧
      fromBytesSigned bs = n :=
  ⟨_, toBytesSigned_int32 n h1 h2, leEncode_length 4 _,
    fromBytesSigned_leEncode_int32 n h1 h2⟩

/-! ### Helper lemmas about zero stripping -/

lemma dropZeros_replicate_append (k : Nat) (l : Bytes) :
    List.dropWhile (fun b => decide (b = 0)) (List.replicate k 0 ++ l) =
      List.dropWhile (fun b => decide (b = 0)) l := by
  induction k with
  | zero => rfl
  | succ k ih => simp [List.replicate_succ, List.dropWhile_cons, ih]

lemma stripNulls_replicate (k : Nat) : stripNulls (List.replicate k 0) = [] := by
  have h := dropZeros_replicate_append k ([] : Bytes)
  rw [List.append_nil] at h
  simp [stripNulls, h]

lemma stripNulls_pad (a : Bytes) (k : Nat) (ha : a ≠ [])
    (hh : a.head? ≠ some 0) (hl : a.getLast? ≠ some 0) :
    stripNulls (a ++ List.replicate k 0) = a := by
  obtain ⟨x, t, rfl⟩ : ∃ x t, a = x :: t := by
    cases a with
    | nil => exact absurd rfl ha
    | cons x t => exact ⟨x, t, rfl⟩
  have hx : x ≠ 0 := by simpa using hh
  have hstep1 : List.dropWhile (fun b => decide (b = 0))
      ((x :: t) ++ List.replicate k 0) = (x :: t) ++ List.replicate k 0 := by
    simp [List.dropWhile_cons, hx]
  rw [stripNulls, hstep1, List.reverse_append, List.reverse_replicate,
    dropZeros_replicate_append]
  obtain ⟨y, t2, hrev⟩ : ∃ y t2, (x :: t).reverse = y :: t2 := by
    cases hr : (x :: t).reverse with
    | nil =>
      have hlen := congrArg List.length hr
      simp at hlen
    | cons y t2 => exact ⟨y, t2, rfl⟩
  have hy : y ≠ 0 := by
    have h3 : (x :: t).reverse.head? = (x :: t).getLast? := List.head?_reverse _
    rw [hrev] at h3
    simp only [List.head?_cons] at h3
    intro h0
    exact hl (by rw [← h3, h0])
  rw [hrev, List.dropWhile_cons, if_neg (by simpa using hy), ← hrev,
    List.reverse_reverse]

/-! ### Helper lemmas about the integer square root -/

lemma isqrt_eq_sqrt (n : Nat) : IsPrimeCommand.isqrt n = Nat.sqrt n := by
  refine Nat.le_antisymm ?_ ?_
  · have hspec : IsPrimeCommand.isqrt n * IsPrimeCommand.isqrt n ≤ n := by
      have := Nat.findGreatest_spec (P := fun k => k * k ≤ n) (m := 0)
        (Nat.zero_le n) (by simp)
      simpa [IsPrimeCommand.isqrt] using this
    exact Nat.le_sqrt.mpr hspec
  · exact Nat.le_findGreatest (Nat.sqrt_le_self n) (Nat.sqrt_le n)

/-! ### Helper lemmas for the round-trip and length claims -/

lemma int32_range (n : Int)
    (h : IsPrimeCommand.MIN_ALLOWED ≤ n ∧ n ≤ IsPrimeCommand.MAX_ALLOWED) :
    -(2 ^ 31) ≤ n ∧ n < 2 ^ 31 := by
  unfold IsPrimeCommand.MIN_ALLOWED IsPrimeCommand.MAX_ALLOWED at h
  norm_num at h ⊢
  omega

lemma who_to_bytes_some (a : Bytes) (ha : a ≠ []) (hlen : a.length ≤ 128) :
    WhoCommand.to_bytes (some a) = .ok (a ++ List.replicate (128 - a.length) 0) := by
  rw [WhoCommand.to_bytes, if_neg (by simpa using ha)]
  simp only [Option.getD_some]
  rw [if_neg]
  simp only [List.length_append, List.length_replicate]
  omega

lemma who_roundtrip (a : Bytes) (ha : a ≠ []) (hlen : a.length ≤ 128)
    (hh : a.head? ≠ some 0) (hl : a.getLast? ≠ some 0)
    (hu : validUtf8 a = true) :
    ∃ bs : Bytes, WhoCommand.to_bytes (some a) = .ok bs ∧
      WhoCommand.from_bytes bs = .ok (.who (some a)) := by
  refine ⟨a ++ List.replicate (128 - a.length) 0,
    who_to_bytes_some a ha hlen, ?_⟩
  have hs : stripNulls (a ++ List.replicate (128 - a.length) 0) = a :=
    stripNulls_pad a _ ha hh hl
  simp [WhoCommand.from_bytes, hs, hu, ha]

lemma exists_four (l : Bytes) (h : l.length = 4) :
    ∃ x0 x1 x2 x3, l = [x0, x1, x2, x3] := by
  rcases l with _ | ⟨x0, l⟩
  · simp at h
  rcases l with _ | ⟨x1, l⟩
  · simp at h
  rcases l with _ | ⟨x2, l⟩
  · simp at h
  rcases l with _ | ⟨x3, l⟩
  · simp at h
  have hl : l = [] := by
    simp only [List.length_cons] at h
    exact List.eq_nil_of_length_eq_zero (by omega)
  subst hl
  exact ⟨x0, x1, x2, x3, rfl⟩

lemma chunks16 (b1 b2 b3 b4 : Bytes) (h1 : b1.length = 4) (h2 : b2.length = 4)
    (h3 : b3.length = 4) (h4 : b4.length = 4) :
    (b1 ++ b2 ++ b3 ++ b4).length = 16
    ∧ (b1 ++ b2 ++ b3 ++ b4).take 4 = b1
    ∧ ((b1 ++ b2 ++ b3 ++ b4).drop 4).take 4 = b2
    ∧ ((b1 ++ b2 ++ b3 ++ b4).drop 8).take 4 = b3
    ∧ (b1 ++ b2 ++ b3 ++ b4).drop 12 = b4 := by
  obtain ⟨a0, a1, a2, a3, rfl⟩ := exists_four b1 h1
  obtain ⟨c0, c1, c2, c3, rfl⟩ := exists_four b2 h2
  obtain ⟨d0, d1, d2, d3, rfl⟩ := exists_four b3 h3
  obtain ⟨e0, e1, e2, e3, rfl⟩ := exists_four b4 h4
  exact ⟨rfl, rfl, rfl, rfl, rfl⟩

lemma stats_roundtrip (n1 n2 n3 n4 : Int)
    (h1 : -(2 ^ 31) ≤ n1 ∧ n1 < 2 ^ 31) (h2 : -(2 ^ 31) ≤ n2 ∧ n2 < 2 ^ 31)
    (h3 : -(2 ^ 31) ≤ n3 ∧ n3 < 2 ^ 31) (h4 : -(2 ^ 31) ≤ n4 ∧ n4 < 2 ^ 31) :
    ∃ bs : Bytes, StatsCommand.to_bytes n1 n2 n3 n4 = .ok bs ∧
      bs.length = 16 ∧
      StatsCommand.from_bytes bs = .ok (.stats n1 n2 n3 n4) := by
  obtain ⟨b1, e1, l1, d1⟩ := roundtrip_int32 n1 h1.1 h1.2
  obtain ⟨b2, e2, l2, d2⟩ := roundtrip_int32 n2 h2.1 h2.2
  obtain ⟨b3, e3, l3, d3⟩ := roundtrip_int32 n3 h3.1 h3.2
  obtain ⟨b4, e4, l4, d4⟩ := roundtrip_int32 n4 h4.1 h4.2
  obtain ⟨hc0, hc1, hc2, hc3, hc4⟩ := chunks16 b1 b2 b3 b4 l1 l2 l3 l4
  refine ⟨b1 ++ b2 ++ b3 ++ b4, ?_, hc0, ?_⟩
  · rw [StatsCommand.to_bytes, e1, e2, e3, e4]
    rfl
  · rw [StatsCommand.from_bytes, if_pos hc0, hc1, hc2, hc3, hc4, d1, d2, d3, d4]

/-- `_is_prime` answers true exactly when `n ≥ 2` and no `d` with
`2 ≤ d ≤ ⌊√n⌋` divides `n`. -/
lemma is_prime_iff (n : Int) :
    IsPrimeCommand.is_prime n = true ↔
      2 ≤ n ∧ ∀ d : Nat, 2 ≤ d → d ≤ Nat.sqrt n.toNat → ¬((d : Int) ∣ n) := by
  unfold IsPrimeCommand.is_prime
  split
  case isTrue h =>
    simp only [Bool.false_eq_true, false_iff]
    intro hc
    omega
  case isFalse h =>
    have h2 : 2 ≤ n := by omega
    have hq1 : 1 ≤ Nat.sqrt n.toNat := Nat.le_sqrt.mpr (by omega)
    rw [isqrt_eq_sqrt, List.all_eq_true]
    constructor
    · intro hall
      refine ⟨h2, fun d hd2 hdle hdvd => ?_⟩
      have hmem : d ∈ List.range' 2 (Nat.sqrt n.toNat + 1 - 2) := by
        rw [List.mem_range'_1]
        omega
      have hd := hall d hmem
      simp only [decide_eq_true_eq] at hd
      exact hd (Int.emod_eq_zero_of_dvd hdvd)
    · rintro ⟨-, hall⟩ d hmem
      rw [List.mem_range'_1] at hmem
      simp only [decide_eq_true_eq]
      intro hmod
      exact hall d hmem.1 (by omega) (Int.dvd_of_emod_eq_zero hmod)

/-- C1: for every `n` in `[-2^31, 2^31-1]`, `IsPrimeCommand._is_prime n` is
true iff `n ≥ 2` and no `d` with `2 ≤ d ≤ ⌊√n⌋` divides `n`; in particular
it is false for every `n < 2`, true at 2 and 3, and false at 4. -/
theorem C1_is_prime_trial_division (n : Int)
    (h1 : IsPrimeCommand.MIN_ALLOWED ≤ n) (h2 : n ≤ IsPrimeCommand.MAX_ALLOWED) :
    (IsPrimeCommand.is_prime n = true ↔
      2 ≤ n ∧ ∀ d : Nat, 2 ≤ d → d ≤ Nat.sqrt n.toNat → ¬((d : Int) ∣ n))
    ∧ (n < 2 → IsPrimeCommand.is_prime n = false)
    ∧ IsPrimeCommand.is_prime 2 = true
    ∧ IsPrimeCommand.is_prime 3 = true
    ∧ IsPrimeCommand.is_prime 4 = false := by
  refine ⟨is_prime_iff n, fun hlt => ?_, by decide, by decide, by decide⟩
  unfold IsPrimeCommand.is_prime
  simp [hlt]

/-- Witness for C1 at `n = 7`. -/
theorem C1_witness :
    (IsPrimeCommand.MIN_ALLOWED ≤ (7 : Int) ∧ (7 : Int) ≤ IsPrimeCommand.MAX_ALLOWED)
    ∧ ((IsPrimeCommand.is_prime 7 = true ↔
        2 ≤ (7 : Int) ∧ ∀ d : Nat, 2 ≤ d → d ≤ Nat.sqrt (7 : Int).toNat →
          ¬((d : Int) ∣ (7 : Int)))
      ∧ ((7 : Int) < 2 → IsPrimeCommand.is_prime 7 = false)
      ∧ IsPrimeCommand.is_prime 2 = true
      ∧ IsPrimeCommand.is_prime 3 = true
      ∧ IsPrimeCommand.is_prime 4 = false) :=
  ⟨⟨by decide, by decide⟩, C1_is_prime_trial_division 7 (by decide) (by decide)⟩

/-- C3: `isprime(2); isprime(3); isprime(4); isprime(5); finishsession` from
a fresh session yields `stats(4, 3, 2, 5)` and clears the running flag. -/
theorem C3_session_accumulation (a : Bytes) :
    (Command.call .finishsession
      (execAll [.isprime 2, .isprime 3, .isprime 4, .isprime 5]
        (SessionData.initial a))).2 = some (.stats 4 3 2 5)
    ∧ (Command.call .finishsession
      (execAll [.isprime 2, .isprime 3, .isprime 4, .isprime 5]
        (SessionData.initial a))).1.session_running = false := by
  have p2 : IsPrimeCommand.is_prime 2 = true := by decide
  have p3 : IsPrimeCommand.is_prime 3 = true := by decide
  have p4 : IsPrimeCommand.is_prime 4 = false := by decide
  have p5 : IsPrimeCommand.is_prime 5 = true := by decide
  have e : execAll [.isprime 2, .isprime 3, .isprime 4, .isprime 5]
      (SessionData.initial a) =
      { author := a, session_running := true, numbers_cnt := 4, primes_cnt := 3,
        min_value := 2, max_value := 5 } := by
    simp only [execAll, List.foldl_cons, List.foldl_nil, Command.call,
      SessionData.initial, p2, p3, p4, p5, if_true, if_false]
    norm_num [IsPrimeCommand.MAX_ALLOWED, IsPrimeCommand.MIN_ALLOWED]
  rw [e]
  exact ⟨rfl, rfl⟩

/-- Witness for C3 with a concrete author. -/
theorem C3_witness :
    (Command.call .finishsession
      (execAll [.isprime 2, .isprime 3, .isprime 4, .isprime 5]
        (SessionData.initial [97]))).2 = some (.stats 4 3 2 5)
    ∧ (Command.call .finishsession
      (execAll [.isprime 2, .isprime 3, .isprime 4, .isprime 5]
        (SessionData.initial [97]))).1.session_running = false :=
  C3_session_accumulation [97]

/-- C7: executing a `who` never mutates the session state; an incoming
`who` with a falsy author is answered with the session's author, one
carrying an author gets no response. -/
theorem C7_who_frame (a : Option Bytes) (s : SessionData) :
    ((Command.who a).call s).1 = s
    ∧ (a.getD [] = [] → ((Command.who a).call s).2 = some (.who (some s.author)))
    ∧ (a.getD [] ≠ [] → ((Command.who a).call s).2 = none) := by
  refine ⟨rfl, fun h => ?_, fun h => ?_⟩ <;> simp [Command.call, h]

/-- Witness for C7 with no author on a fresh session. -/
theorem C7_witness :
    ((Command.who none).call (SessionData.initial [65])).1 = SessionData.initial [65]
    ∧ ((none : Option Bytes).getD [] = [] →
      ((Command.who none).call (SessionData.initial [65])).2 =
        some (.who (some (SessionData.initial [65]).author)))
    ∧ ((none : Option Bytes).getD [] ≠ [] →
      ((Command.who none).call (SessionData.initial [65])).2 = none) :=
  C7_who_frame none (SessionData.initial [65])

/-- C8: a 1-byte `bool` payload decodes successfully iff the byte is 0 or 1,
to `false` resp. `true`; every other byte raises a `ValueError`. -/
theorem C8_bool_payload (b : Nat) (hb : b < 256) :
    ((BoolCommand.from_bytes [b]).isOk = true ↔ (b = 0 ∨ b = 1))
    ∧ (b = 0 → BoolCommand.from_bytes [b] = .ok (.bool false))
    ∧ (b = 1 → BoolCommand.from_bytes [b] = .ok (.bool true))
    ∧ (b ≠ 0 → b ≠ 1 → BoolCommand.from_bytes [b] = .error .valueError) := by
  have hd : leDecode [b] = b := by simp [leDecode]
  refine ⟨?_, fun h0 => ?_, fun h1 => ?_, fun h0 h1 => ?_⟩
  · by_cases h0 : b = 0
    · subst h0; simp [BoolCommand.from_bytes, leDecode, Except.isOk, Except.toBool]
    · by_cases h1 : b = 1
      · subst h1; simp [BoolCommand.from_bytes, leDecode, Except.isOk, Except.toBool]
      · simp [BoolCommand.from_bytes, hd, h0, h1, Except.isOk, Except.toBool]
  · subst h0; rfl
  · subst h1; rfl
  · simp [BoolCommand.from_bytes, hd, h0, h1]

/-- Witness for C8 at the rejected byte 2 (and via the iff, at 0 and 1). -/
theorem C8_witness :
    (2 : Nat) < 256
    ∧ (((BoolCommand.from_bytes [2]).isOk = true ↔ ((2 : Nat) = 0 ∨ (2 : Nat) = 1))
      ∧ ((2 : Nat) = 0 → BoolCommand.from_bytes [2] = .ok (.bool false))
      ∧ ((2 : Nat) = 1 → BoolCommand.from_bytes [2] = .ok (.bool true))
      ∧ ((2 : Nat) ≠ 0 → (2 : Nat) ≠ 1 →
        BoolCommand.from_bytes [2] = .error .valueError)) :=
  ⟨by decide, C8_bool_payload 2 (by decide)⟩

/-- C9: every 4-byte payload decodes to an `isprime` command; the
constructor's `OverflowError` branch is unreachable from `from_bytes`. -/
theorem C9_isprime_decode_total (bs : Bytes) (hlen : bs.length = 4)
    (hb : ∀ b ∈ bs, b < 256) :
    ∃ n : Int, IsPrimeCommand.from_bytes bs = .ok (.isprime n) := by
  have hv := leDecode_lt bs hb
  rw [hlen] at hv
  have hv4 : leDecode bs < 4294967296 := by
    have e : (2 : Nat) ^ (8 * 4) = 4294967296 := by norm_num
    omega
  have hrange : IsPrimeCommand.MIN_ALLOWED ≤ fromBytesSigned bs
      ∧ fromBytesSigned bs ≤ IsPrimeCommand.MAX_ALLOWED := by
    unfold fromBytesSigned
    simp only [hlen, IsPrimeCommand.MIN_ALLOWED, IsPrimeCommand.MAX_ALLOWED]
    have eN : (2 : Nat) ^ (8 * 4) = 4294967296 := by norm_num
    have eZ : (2 : Int) ^ (8 * 4) = 4294967296 := by norm_num
    have e31 : (2 : Int) ^ 31 = 2147483648 := by norm_num
    rw [eN, eZ, e31]
    split <;> omega
  refine ⟨fromBytesSigned bs, ?_⟩
  rw [IsPrimeCommand.from_bytes, IsPrimeCommand.init, if_neg (by
    simpa using hrange)]

/-- Witness for C9 at the all-ones payload, which decodes to `-1`. -/
theorem C9_witness :
    ([255, 255, 255, 255] : Bytes).length = 4
    ∧ (∀ b ∈ ([255, 255, 255, 255] : Bytes), b < 256)
    ∧ ∃ n : Int, IsPrimeCommand.from_bytes [255, 255, 255, 255] = .ok (.isprime n) :=
  ⟨by decide, by decide,
    C9_isprime_decode_total [255, 255, 255, 255] (by decide) (by decide)⟩

/-- C10: every command execution preserves `0 ≤ primes_cnt ≤ numbers_cnt`
and never decreases either counter; the invariant holds initially. -/
theorem C10_counter_invariant (c : Command) (s : SessionData) (a : Bytes)
    (h : 0 ≤ s.primes_cnt ∧ s.primes_cnt ≤ s.numbers_cnt) :
    (0 ≤ (c.call s).1.primes_cnt
      ∧ (c.call s).1.primes_cnt ≤ (c.call s).1.numbers_cnt)
    ∧ s.numbers_cnt ≤ (c.call s).1.numbers_cnt
    ∧ s.primes_cnt ≤ (c.call s).1.primes_cnt
    ∧ (0 ≤ (SessionData.initial a).primes_cnt
      ∧ (SessionData.initial a).primes_cnt ≤ (SessionData.initial a).numbers_cnt) := by
  have hinit : 0 ≤ (SessionData.initial a).primes_cnt
      ∧ (SessionData.initial a).primes_cnt ≤ (SessionData.initial a).numbers_cnt := by
    simp [SessionData.initial]
  cases c with
  | who a2 => exact ⟨h, le_refl _, le_refl _, hinit⟩
  | bool v => exact ⟨h, le_refl _, le_refl _, hinit⟩
  | stats n1 n2 n3 n4 => exact ⟨h, le_refl _, le_refl _, hinit⟩
  | finishsession => exact ⟨h, le_refl _, le_refl _, hinit⟩
  | isprime n =>
    simp only [Command.call]
    split <;> simp <;> omega

/-- Witness for C10: `isprime 4` on a fresh session. -/
theorem C10_witness :
    (0 ≤ (SessionData.initial []).primes_cnt
      ∧ (SessionData.initial []).primes_cnt ≤ (SessionData.initial []).numbers_cnt)
    ∧ ((0 ≤ ((Command.isprime 4).call (SessionData.initial [])).1.primes_cnt
        ∧ ((Command.isprime 4).call (SessionData.initial [])).1.primes_cnt ≤
          ((Command.isprime 4).call (SessionData.initial [])).1.numbers_cnt)
      ∧ (SessionData.initial []).numbers_cnt ≤
          ((Command.isprime 4).call (SessionData.initial [])).1.numbers_cnt
      ∧ (SessionData.initial []).primes_cnt ≤
          ((Command.isprime 4).call (SessionData.initial [])).1.primes_cnt
      ∧ (0 ≤ (SessionData.initial [42]).primes_cnt
        ∧ (SessionData.initial [42]).primes_cnt ≤
            (SessionData.initial [42]).numbers_cnt)) :=
  ⟨by decide, C10_counter_invariant (.isprime 4) (SessionData.initial []) [42]
    (by decide)⟩

/-- C2: for every command value in its variant's valid domain, encoding
succeeds and decoding the encoding yields the value back, field for field. -/
theorem C2_encode_decode_roundtrip (c : Command) (h : c.validDomain = true) :
    ∃ bs : Bytes, c.to_bytes = .ok bs ∧ c.decodeAs bs = .ok c := by
  cases c with
  | who a =>
    cases a with
    | none =>
      refine ⟨List.replicate 128 0, rfl, ?_⟩
      show WhoCommand.from_bytes (List.replicate 128 0) = .ok (.who none)
      rw [WhoCommand.from_bytes]
      simp only [stripNulls_replicate]
      rfl
    | some a =>
      simp only [Command.validDomain, Bool.and_eq_true, decide_eq_true_eq,
        Bool.not_eq_true', List.isEmpty_eq_false_iff_exists_mem] at h
      obtain ⟨⟨⟨⟨hne, hlen⟩, hh⟩, hl⟩, hu⟩ := h
      have ha : a ≠ [] := by
        obtain ⟨x, hx⟩ := hne
        intro h0
        simp [h0] at hx
      obtain ⟨bs, he, hd⟩ := who_roundtrip a ha hlen hh hl hu
      exact ⟨bs, he, hd⟩
  | bool v => cases v <;> exact ⟨_, rfl, rfl⟩
  | finishsession => exact ⟨[], rfl, rfl⟩
  | isprime n =>
    have hdom : IsPrimeCommand.MIN_ALLOWED ≤ n ∧ n ≤ IsPrimeCommand.MAX_ALLOWED := by
      simpa [Command.validDomain] using h
    have hr := int32_range n hdom
    obtain ⟨bs, he, hlen, hd⟩ := roundtrip_int32 n hr.1 hr.2
    refine ⟨bs, he, ?_⟩
    rw [Command.decodeAs, IsPrimeCommand.from_bytes, hd, IsPrimeCommand.init,
      if_neg (by simpa using hdom)]
  | stats n1 n2 n3 n4 =>
    simp only [Command.validDomain, Bool.and_eq_true, decide_eq_true_eq] at h
    obtain ⟨⟨⟨hd1, hd2⟩, hd3⟩, hd4⟩ := h
    obtain ⟨bs, he, -, hd⟩ := stats_roundtrip n1 n2 n3 n4
      (int32_range n1 hd1) (int32_range n2 hd2) (int32_range n3 hd3)
      (int32_range n4 hd4)
    exact ⟨bs, he, hd⟩

/-- Witness for C2 at an `isprime` boundary value. -/
theorem C2_witness :
    (Command.isprime (-(2 ^ 31))).validDomain = true
    ∧ ∃ bs : Bytes, (Command.isprime (-(2 ^ 31))).to_bytes = .ok bs
      ∧ (Command.isprime (-(2 ^ 31))).decodeAs bs = .ok (.isprime (-(2 ^ 31))) :=
  ⟨by decide, C2_encode_decode_roundtrip (.isprime (-(2 ^ 31))) (by decide)⟩

/-- C6: for every command value in its variant's length domain, the encoded
payload's length equals the variant's declared `data_length`. -/
theorem C6_payload_length (c : Command) (h : c.lengthDomain = true) :
    ∃ bs : Bytes, c.to_bytes = .ok bs ∧ bs.length = c.data_length := by
  cases c with
  | who a =>
    cases a with
    | none => exact ⟨List.replicate 128 0, rfl, by simp [Command.data_length]⟩
    | some a =>
      have hlen : a.length ≤ 128 := by simpa [Command.lengthDomain] using h
      by_cases hempty : a = []
      · subst hempty
        exact ⟨List.replicate 128 0, rfl, by simp [Command.data_length]⟩
      · refine ⟨a ++ List.replicate (128 - a.length) 0, ?_, ?_⟩
        · exact who_to_bytes_some a hempty hlen
        · simp only [Command.data_length, List.length_append, List.length_replicate]
          omega
  | bool v => cases v <;> exact ⟨_, rfl, rfl⟩
  | finishsession => exact ⟨[], rfl, rfl⟩
  | isprime n =>
    have hdom : IsPrimeCommand.MIN_ALLOWED ≤ n ∧ n ≤ IsPrimeCommand.MAX_ALLOWED := by
      simpa [Command.lengthDomain] using h
    have hr := int32_range n hdom
    obtain ⟨bs, he, hlen, -⟩ := roundtrip_int32 n hr.1 hr.2
    exact ⟨bs, he, hlen⟩
  | stats n1 n2 n3 n4 =>
    simp only [Command.lengthDomain, Bool.and_eq_true, decide_eq_true_eq] at h
    obtain ⟨⟨⟨hd1, hd2⟩, hd3⟩, hd4⟩ := h
    obtain ⟨bs, he, hlen, -⟩ := stats_roundtrip n1 n2 n3 n4
      (int32_range n1 hd1) (int32_range n2 hd2) (int32_range n3 hd3)
      (int32_range n4 hd4)
    exact ⟨bs, he, hlen⟩

/-- Witness for C6 at a `who` with a 2-byte author. -/
theorem C6_witness :
    (Command.who (some [65, 66])).lengthDomain = true
    ∧ ∃ bs : Bytes, (Command.who (some [65, 66])).to_bytes = .ok bs
      ∧ bs.length = (Command.who (some [65, 66])).data_length :=
  ⟨by decide, C6_payload_length (.who (some [65, 66])) (by decide)⟩

/-- C4 fails as stated: a `who` command that carries an author executes to
no response (`None`), and the driver's unconditional `_send_command` then
raises `AttributeError` on `None.name` instead of continuing the loop. -/
theorem C4_counterexample :
    CommandServer.handleCommand (SessionData.initial [97]) (.who (some [88]))
      = .error .attributeError := rfl

/-- C4 (amended): when execution yields a response command whose encoding
succeeds, the driver writes the framed response and continues with the
updated state; but when execution returns no response (a `who` carrying an
author), the send step raises `AttributeError` and aborts the session. -/
theorem C4_driver_step (s s2 : SessionData) (c r : Command) (bs : Bytes)
    (hcall : c.call s = (s2, some r)) (henc : r.to_bytes = .ok bs) :
    CommandServer.handleCommand s c =
      .ok (s2, leEncode 1 (1 + r.nameBytes.length) ++ r.nameBytes ++ bs)
    ∧ ∀ s3 : SessionData, ∀ a : Bytes,
      CommandServer.handleCommand s3 (.who (some (97 :: a))) = .error .attributeError := by
  constructor
  · rw [CommandServer.handleCommand, hcall]
    simp [CommandServer.sendCommand, henc, CommandServer.MESSAGE_HEADER_SIZE_LENGTH,
      Except.map]
  · intro s3 a
    rfl

/-- Witness for C4 (amended): `finishsession` on a fresh session. -/
theorem C4_witness :
    CommandServer.handleCommand (SessionData.initial [97]) .finishsession =
      .ok ((⟨[97], false, 0, 0, IsPrimeCommand.MAX_ALLOWED,
          IsPrimeCommand.MIN_ALLOWED⟩ : SessionData),
        leEncode 1 (1 + (Command.stats 0 0 IsPrimeCommand.MAX_ALLOWED
            IsPrimeCommand.MIN_ALLOWED).nameBytes.length)
          ++ (Command.stats 0 0 IsPrimeCommand.MAX_ALLOWED
            IsPrimeCommand.MIN_ALLOWED).nameBytes
          ++ [0, 0, 0, 0, 0, 0, 0, 0, 255, 255, 255, 127, 0, 0, 0, 128])
    ∧ ∀ s3 : SessionData, ∀ a : Bytes,
      CommandServer.handleCommand s3 (.who (some (97 :: a))) = .error .attributeError :=
  C4_driver_step (SessionData.initial [97]) _ .finishsession
    (.stats 0 0 IsPrimeCommand.MAX_ALLOWED IsPrimeCommand.MIN_ALLOWED)
    [0, 0, 0, 0, 0, 0, 0, 0, 255, 255, 255, 127, 0, 0, 0, 128] rfl rfl

/-- C5 fails as stated: the 2-byte payload `00 00` has the wrong length for
`bool` (`data_length` 1), yet `BoolCommand.from_bytes` decodes it to
`bool(false)` instead of failing. -/
theorem C5_counterexample :
    ([0, 0] : Bytes).length ≠ 1
    ∧ BoolCommand.from_bytes [0, 0] = .ok (.bool false) :=
  ⟨by decide, rfl⟩

/-- C5 (amended): only `stats` rejects a payload of the wrong length;
`who`, `bool`, `isprime` and `finishsession` never check the payload
length (`bool` fails only on a decoded value other than 0/1, `isprime`
only on a decoded value outside the signed 32-bit range). -/
theorem C5_length_checks :
    (∀ bs : Bytes, bs.length ≠ 16 → StatsCommand.from_bytes bs = .error .structError)
    ∧ BoolCommand.from_bytes [0, 0] = .ok (.bool false)
    ∧ WhoCommand.from_bytes [65, 66] = .ok (.who (some [65, 66]))
    ∧ FinishSessionCommand.from_bytes [1, 2, 3] = .ok .finishsession
    ∧ IsPrimeCommand.from_bytes [7] = .ok (.isprime 7) := by
  refine ⟨fun bs hbs => ?_, rfl, rfl, rfl, rfl⟩
  rw [StatsCommand.from_bytes, if_neg hbs]

/-- Witness for C5 (amended) at the empty payload for `stats`. -/
theorem C5_witness :
    StatsCommand.from_bytes ([] : Bytes) = .error .structError :=
  C5_length_checks.1 [] (by decide)

end SocketsLab
